import Mathlib

/-!
Verification of the dynamic-array container in src/advanced-vector/vector.h
(classes RawMemory and Vector).

The embedding models the externally observable state of a Vector<T> as the
list of its live elements (the contents of slots [0, size_)) together with
the capacity of the RawMemory buffer it owns; size_ is the length of that
list.  Element-wise loops of the source (std::move, std::move_backward,
std::uninitialized_copy_n, std::copy_n) are rendered as structurally
recursive functions over those lists that perform exactly the per-slot
reads and writes of the originals.  Copy construction and copy assignment
of the element type may throw; this is modelled by boolean oracles and the
Except monad, with the error value carrying the state the vector is left
in when the exception escapes.
-/

set_option maxHeartbeats 1000000

namespace AdvVec

/-- Observable state of a Vector<T> (vector.h lines 595-597): the live
elements stored in slots [0, size_) of the owned RawMemory buffer, and the
buffer capacity.  size_ equals elems.length. -/
structure Vec (T : Type) where
  elems : List T
  cap : Nat
deriving Repr, DecidableEq

variable {T : Type}

/-- size_ of the vector: number of live elements. -/
def Vec.size (s : Vec T) : Nat := s.elems.length

/-- The container invariant: the live-element count never exceeds the
capacity of the owned buffer. -/
def Vec.WF (s : Vec T) : Prop := s.size ≤ s.cap

/-- Default-constructed vector: no buffer, capacity 0, size 0. -/
def Vec.empty : Vec T := ⟨[], 0⟩

/-- Capacity chosen by the reallocating branches of EmplaceBack, PushBack
and Emplace: size_t new_capacity = (size_ == 0 ? 1 : size_ * 2). -/
def newCapacity (n : Nat) : Nat := if n = 0 then 1 else n * 2

/-- PushBack / EmplaceBack (vector.h lines 290-332, 342-374, 376-412),
success path.  If size_ < Capacity(), construct in the next free slot;
otherwise allocate a buffer of newCapacity size_, construct the new element
at index size_, transfer the old elements to indices [0, size_), destroy
the originals and adopt the new buffer. -/
def Vec.pushBack (s : Vec T) (v : T) : Vec T :=
  if s.size < s.cap then ⟨s.elems ++ [v], s.cap⟩
  else ⟨s.elems ++ [v], newCapacity s.size⟩

/-- PopBack (vector.h lines 417-421): destroy the last live element and
decrement size_. -/
def Vec.popBack (s : Vec T) : Vec T := ⟨s.elems.dropLast, s.cap⟩

/-- Reserve (vector.h lines 569-593), success path: no-op when
new_capacity <= Capacity(); otherwise transfer all live elements into a
fresh buffer of exactly the requested capacity. -/
def Vec.reserve (s : Vec T) (n : Nat) : Vec T :=
  if n ≤ s.cap then s else ⟨s.elems, n⟩

/-- Resize (vector.h lines 263-279), success path: growing reserves and
value-constructs the newly exposed tail slots with the
default-constructed value dflt; shrinking destroys the trailing
size_ - new_size elements; equal size is a no-op. -/
def Vec.resize (s : Vec T) (n : Nat) (dflt : T) : Vec T :=
  if s.size < n then
    let r := s.reserve n
    ⟨r.elems ++ List.replicate (n - s.size) dflt, r.cap⟩
  else if n < s.size then ⟨s.elems.take n, s.cap⟩
  else s

/-- Loop of std::move(first, last, d_first) (used by Erase): fuel counts
the iterations (last - first); each step performs
*d_first++ = std::move(*first++). -/
def moveForwardGo [Inhabited T] : Nat → List T → Nat → Nat → List T
  | 0, b, _, _ => b
  | k + 1, b, first, dfirst =>
      moveForwardGo k (b.set dfirst (b.getD first default)) (first + 1) (dfirst + 1)

/-- std::move(first, last, d_first) acting on buffer b by indices. -/
def moveForward [Inhabited T] (b : List T) (first last dfirst : Nat) : List T :=
  moveForwardGo (last - first) b first dfirst

/-- Loop of std::move_backward(first, last, d_last) (used by in-capacity
Emplace): fuel counts the iterations (last - first); each step performs
*(--d_last) = std::move(*(--last)). -/
def moveBackwardGo [Inhabited T] : Nat → List T → Nat → Nat → List T
  | 0, b, _, _ => b
  | k + 1, b, last, dlast =>
      moveBackwardGo k (b.set (dlast - 1) (b.getD (last - 1) default)) (last - 1) (dlast - 1)

/-- std::move_backward(first, last, d_last) acting on buffer b by indices. -/
def moveBackward [Inhabited T] (b : List T) (first last dlast : Nat) : List T :=
  moveBackwardGo (last - first) b last dlast

/-- Erase (vector.h lines 526-534): index = distance(cbegin(), pos);
std::move(begin() + index + 1, end(), begin() + index); then PopBack. -/
def Vec.erase [Inhabited T] (s : Vec T) (p : Nat) : Vec T :=
  ⟨(moveForward s.elems (p + 1) s.size p).dropLast, s.cap⟩

/-- Emplace (vector.h lines 428-514), success path, index p.  Insertion at
the end delegates to EmplaceBack.  With spare capacity: materialize the
new value as a temporary, move-construct the last element into slot size_,
std::move_backward the range [p, size_ - 1) one slot later, move-assign
the temporary into slot p.  Otherwise: allocate newCapacity size_ slots,
construct the new element at index p of the new buffer, transfer the
prefix [0, p) and the suffix [p, size_) around it, destroy the originals
and adopt the new buffer. -/
def Vec.emplace [Inhabited T] (s : Vec T) (p : Nat) (v : T) : Vec T :=
  if p = s.size then s.pushBack v
  else if s.size < s.cap then
    ⟨(moveBackward (s.elems ++ [s.elems.getD (s.size - 1) default])
        p (s.size - 1) s.size).set p v, s.cap⟩
  else
    ⟨s.elems.take p ++ v :: s.elems.drop p, newCapacity s.size⟩

/-- Copy assignment (vector.h lines 208-242), success path, for
this != &rhs.  When Capacity() < rhs.size_: copy-and-swap through a
duplicate whose buffer capacity is rhs.size_.  Otherwise reuse the
existing storage, copy-assigning over the common prefix, and either
destroying the surplus tail or copy-constructing the missing tail; the
capacity is unchanged. -/
def Vec.copyAssign (dst src : Vec T) : Vec T :=
  if dst.cap < src.size then ⟨src.elems, src.size⟩
  else ⟨src.elems, dst.cap⟩

/-- Swap (vector.h lines 562-566): exchange buffer ownership and size_;
never throws. -/
def Vec.swapOp (a b : Vec T) : Vec T × Vec T := (b, a)

/-- Move constructor (vector.h lines 196-200): this starts default
initialized (null buffer, capacity 0, size 0), then data_.Swap(other.data_)
and std::swap(size_, other.size_).  Returns (constructed vector, moved-from
source).  Total: performs no allocation and no element operation, so it
never throws. -/
def Vec.moveCtor (src : Vec T) : Vec T × Vec T := Vec.swapOp Vec.empty src

/-- Move assignment (vector.h lines 244-251): if this != &rhs (flag same =
false) swap buffer and size with the source, else do nothing.  Returns
(destination, source) afterwards.  Total: never throws. -/
def Vec.moveAssign (same : Bool) (dst src : Vec T) : Vec T × Vec T :=
  if same then (dst, src) else Vec.swapOp dst src

/-- EmplaceBack with its return value (vector.h line 329): a reference to
*(data_.GetAddress() + size_ - 1), i.e. the element at index size_ - 1 of
the updated vector. -/
def Vec.emplaceBackRet (s : Vec T) (v : T) : Vec T × Nat :=
  (s.pushBack v, (s.pushBack v).size - 1)

/-- Emplace with its returned iterator (vector.h lines 437, 453, 512): in
the end-insertion branch end() - 1, i.e. index size - 1 of the result;
otherwise begin() + index, recomputed after any reallocation. -/
def Vec.emplaceRet [Inhabited T] (s : Vec T) (p : Nat) (v : T) : Vec T × Nat :=
  if p = s.size then (s.emplace p v, (s.emplace p v).size - 1)
  else (s.emplace p v, p)

/-- Erase with its returned iterator (vector.h line 533): begin() + index. -/
def Vec.eraseRet [Inhabited T] (s : Vec T) (p : Nat) : Vec T × Nat :=
  (s.erase p, p)

/-- The capacity-many slots of the owned buffer: slot i carries some x
when a live element x is constructed in it (i < size_), and none when it
is raw uninitialized memory (size_ <= i < capacity). -/
def Vec.slots (s : Vec T) : List (Option T) :=
  s.elems.map some ++ List.replicate (s.cap - s.size) none

/-- Copy construction of one element under an oracle: copying a succeeds
(yielding an equal value) iff ok a = true, otherwise the copy constructor
throws. -/
def copyOne (ok : T → Bool) (a : T) : Except Unit T :=
  if ok a then .ok a else .error ()

/-- std::uninitialized_copy_n under a copy oracle: copy-constructs the
elements in order; when a copy throws, the already-constructed copies are
destroyed and the exception is rethrown. -/
def copySeq (ok : T → Bool) : List T → Except Unit (List T)
  | [] => .ok []
  | a :: rest =>
    if ok a then
      match copySeq ok rest with
      | .ok l => .ok (a :: l)
      | .error e => .error e
    else .error ()

/-- EmplaceBack / PushBack (vector.h lines 290-332, 342-374) for an
element type that is copy constructible and whose move constructor is not
noexcept, so the if-constexpr at lines 313/359 selects the duplicating
std::uninitialized_copy_n branch.  mk models the construction of the new
element itself (the T(args...) at line 302/311); ok is the copy oracle for
the per-element transfer.  An error value carries the state the vector is
left in when the exception propagates out of the call. -/
def Vec.emplaceBackDup (ok : T → Bool) (s : Vec T) (mk : Except Unit T) :
    Except (Vec T) (Vec T) :=
  if s.size < s.cap then
    match mk with
    | .ok v => .ok ⟨s.elems ++ [v], s.cap⟩
    | .error _ => .error s
  else
    match mk with
    | .error _ => .error s
    | .ok v =>
      match copySeq ok s.elems with
      | .ok copies => .ok ⟨copies ++ [v], newCapacity s.size⟩
      | .error _ => .error s

/-- Per-element copy assignment under an oracle: std::copy_n assigns the
source elements over the destination prefix in order; when an assignment
throws, the destination keeps the assignments already performed.  The
error value carries the partially overwritten destination list. -/
def assignSeq (ok : T → Bool) : List T → List T → Except (List T) (List T)
  | [], d => .ok d
  | _ :: _, [] => .ok []
  | a :: rest, b :: ds =>
    if ok a then
      match assignSeq ok rest ds with
      | .ok l => .ok (a :: l)
      | .error l => .error (a :: l)
    else .error (b :: ds)

/-- Copy assignment operator (vector.h lines 208-242) with throwing
element copies.  same models this == &rhs (line 210); ctorOk is the copy
construction oracle (uninitialized_copy_n in the duplicate and in the
fresh-tail phases), assignOk the copy assignment oracle (copy_n).  When
Capacity() < rhs.size_, a full duplicate of rhs is built first and swapped
in only on success, so a throw leaves the destination untouched.
Otherwise the existing storage is reused in place.  An error value carries
the state the destination is left in when the exception propagates. -/
def Vec.copyAssignExc (ctorOk assignOk : T → Bool) (same : Bool)
    (dst src : Vec T) : Except (Vec T) (Vec T) :=
  if same then .ok dst
  else if dst.cap < src.size then
    match copySeq ctorOk src.elems with
    | .ok copies => .ok ⟨copies, src.size⟩
    | .error _ => .error dst
  else if src.size < dst.size then
    match assignSeq assignOk src.elems dst.elems with
    | .ok l => .ok ⟨l.take src.size, dst.cap⟩
    | .error l => .error ⟨l, dst.cap⟩
  else
    match assignSeq assignOk (src.elems.take dst.size) dst.elems with
    | .ok l =>
      match copySeq ctorOk (src.elems.drop dst.size) with
      | .ok copies => .ok ⟨l ++ copies, dst.cap⟩
      | .error _ => .error ⟨l, dst.cap⟩
    | .error l => .error ⟨l, dst.cap⟩

/-- A buffer adopted by Vector together with the size_ counter, slot by
slot: some x is a live constructed element, none is raw memory.  Used to
model the reallocating Emplace path, whose catch blocks can hand the
vector a buffer with unconstructed slots below size_. -/
structure RawVec (T : Type) where
  slots : List (Option T)
  size : Nat
  cap : Nat
deriving Repr, DecidableEq

/-- Construct the copied elements xs into consecutive slots starting at
index i of buffer b. -/
def writeSlots : List (Option T) → Nat → List T → List (Option T)
  | b, _, [] => b
  | b, i, x :: xs => writeSlots (b.set i (some x)) (i + 1) xs

/-- std::destroy(first, first + k): destroy the k slots starting at index
i of buffer b, leaving them raw. -/
def clearSlots : List (Option T) → Nat → Nat → List (Option T)
  | b, _, 0 => b
  | b, i, k + 1 => clearSlots (b.set i none) (i + 1) k

/-- The reallocating branch of Emplace at a non-end position p (vector.h
lines 455-513) for an element type using the duplicating copy strategy.
mk models the construction of the new element at index p of the new
buffer (line 462, not inside any try block); ok is the copy oracle for the
prefix and suffix transfers.  The two transfer phases reproduce the source
faithfully: each sits in a try whose catch destroys what was already
constructed (lines 483, 505) and then FALLS THROUGH without rethrowing, so
after a transfer failure the code still swaps in the new buffer, destroys
the old elements, increments size_ and returns normally. -/
def Vec.emplaceReallocDup (ok : T → Bool) (s : Vec T) (p : Nat)
    (mk : Except Unit T) : Except Unit (RawVec T) := do
  let n := s.size
  let ncap := newCapacity n
  let v ← mk
  let buf0 : List (Option T) := (List.replicate ncap none).set p (some v)
  let buf1 :=
    match copySeq ok (s.elems.take p) with
    | .ok pre => writeSlots buf0 0 pre
    | .error _ => buf0.set p none
  let buf2 :=
    match copySeq ok (s.elems.drop p) with
    | .ok suf => writeSlots buf1 (p + 1) suf
    | .error _ => clearSlots buf1 0 (p + 1)
  .ok ⟨buf2, n + 1, ncap⟩

/-- k successive appends of the value 0 starting from the default
constructed vector, to exhibit the capacity growth sequence. -/
def appendN : Nat → Vec Nat
  | 0 => Vec.empty
  | k + 1 => (appendN k).pushBack 0

/-! Helper lemmas about the element-shuffling loops. -/

lemma take_succ_set_self (l : List T) (p : Nat) (v : T) (hp : p < l.length) :
    (l.take (p + 1)).set p v = l.take p ++ [v] := by
  rw [List.take_succ, List.getElem?_eq_getElem hp]
  rw [List.set_append_right _ _ (by simp only [List.length_take]; omega)]
  simp [List.length_take, Nat.min_eq_left hp.le]

lemma moveForwardGo_eq [Inhabited T] :
    ∀ (k : Nat) (b : List T) (p : Nat), p + 1 + k ≤ b.length →
      moveForwardGo k b (p + 1) p =
        b.take p ++ (b.drop (p + 1)).take k ++ b.drop (p + k) := by
  intro k
  induction k with
  | zero =>
    intro b p h
    simp [moveForwardGo]
  | succ k ih =>
    intro b p h
    have hp1 : p + 1 < b.length := by omega
    have hp : p < b.length := by omega
    have hx : b.getD (p + 1) default = b[p + 1] := by
      simp [List.getD_eq_getElem?_getD, List.getElem?_eq_getElem hp1]
    show moveForwardGo k (b.set p (b.getD (p + 1) default)) (p + 1 + 1) (p + 1) = _
    rw [hx]
    rw [ih (b.set p b[p + 1]) (p + 1) (by simp only [List.length_set]; omega)]
    have e1 : (b.set p b[p + 1]).take (p + 1) = b.take p ++ [b[p + 1]] := by
      rw [List.set_take, take_succ_set_self _ _ _ hp]
    have e2 : (b.set p b[p + 1]).drop (p + 1 + 1) = b.drop (p + 1 + 1) :=
      List.drop_set_of_lt _ _ (by omega)
    have e3 : (b.set p b[p + 1]).drop (p + 1 + k) = b.drop (p + 1 + k) :=
      List.drop_set_of_lt _ _ (by omega)
    have e4 : b.drop (p + 1) = b[p + 1] :: b.drop (p + 1 + 1) :=
      List.drop_eq_getElem_cons hp1
    rw [e1, e2, e3, show p + (k + 1) = p + 1 + k by omega]
    conv_rhs => rw [e4, List.take_succ_cons]
    simp only [List.append_assoc, List.singleton_append, List.cons_append, List.nil_append]

lemma moveBackwardGo_eq [Inhabited T] (p : Nat) :
    ∀ (k : Nat) (b : List T), p + k + 1 ≤ b.length →
      moveBackwardGo k b (p + k) (p + k + 1) =
        b.take (p + 1) ++ (b.drop p).take k ++ b.drop (p + k + 1) := by
  intro k
  induction k with
  | zero =>
    intro b h
    simp [moveBackwardGo]
  | succ k ih =>
    intro b h
    have hk : p + k < b.length := by omega
    have hk1 : p + k + 1 < b.length := by omega
    have hx : b.getD (p + k) default = b[p + k] := by
      simp [List.getD_eq_getElem?_getD, List.getElem?_eq_getElem hk]
    show moveBackwardGo k (b.set (p + k + 1 + 1 - 1) (b.getD (p + k + 1 - 1) default))
        (p + k + 1 - 1) (p + k + 1 + 1 - 1) = _
    rw [show p + k + 1 + 1 - 1 = p + k + 1 by omega, show p + k + 1 - 1 = p + k by omega, hx]
    rw [ih (b.set (p + k + 1) b[p + k]) (by simp only [List.length_set]; omega)]
    have f1 : (b.set (p + k + 1) b[p + k]).take (p + 1) = b.take (p + 1) := by
      rw [List.set_take]
      exact List.set_eq_of_length_le (by simp only [List.length_take]; omega)
    have f2 : ((b.set (p + k + 1) b[p + k]).drop p).take k = (b.drop p).take k := by
      rw [List.drop_set, if_neg (by omega), show p + k + 1 - p = k + 1 by omega]
      exact List.take_set_of_lt _ _ (by omega)
    have f3 : (b.set (p + k + 1) b[p + k]).drop (p + k + 1)
        = b[p + k] :: b.drop (p + k + 1 + 1) := by
      rw [List.drop_set, if_neg (by omega), Nat.sub_self,
        List.drop_eq_getElem_cons hk1, List.set_cons_zero]
    have f4 : (b.drop p).take (k + 1) = (b.drop p).take k ++ [b[p + k]] := by
      rw [List.take_succ, List.getElem?_drop, List.getElem?_eq_getElem hk]
      rfl
    rw [f1, f2, f3, f4, show p + (k + 1) + 1 = p + k + 1 + 1 by omega]
    simp [List.append_assoc]

lemma pushBack_elems (s : Vec T) (v : T) : (s.pushBack v).elems = s.elems ++ [v] := by
  unfold Vec.pushBack
  split <;> rfl

lemma pushBack_size (s : Vec T) (v : T) : (s.pushBack v).size = s.size + 1 := by
  simp [Vec.size, pushBack_elems]

lemma pushBack_cap (s : Vec T) (v : T) :
    (s.pushBack v).cap = if s.size < s.cap then s.cap else newCapacity s.size := by
  unfold Vec.pushBack
  split <;> simp [*]

lemma newCapacity_ge (n : Nat) : n + 1 ≤ newCapacity n := by
  unfold newCapacity
  split <;> omega

lemma pushBack_WF (s : Vec T) (v : T) : (s.pushBack v).WF := by
  have h1 := newCapacity_ge s.size
  show (s.pushBack v).size ≤ (s.pushBack v).cap
  rw [pushBack_size, pushBack_cap]
  split <;> omega

lemma size_eq_length (s : Vec T) : s.size = s.elems.length := rfl

lemma erase_elems [Inhabited T] (s : Vec T) (p : Nat) (hp : p < s.size) :
    (s.erase p).elems = s.elems.take p ++ s.elems.drop (p + 1) := by
  have hsl := size_eq_length s
  have hlen : p + 1 + (s.size - (p + 1)) ≤ s.elems.length := by omega
  show (moveForward s.elems (p + 1) s.size p).dropLast = _
  unfold moveForward
  rw [moveForwardGo_eq (s.size - (p + 1)) s.elems p hlen]
  have h1 : (s.elems.drop (p + 1)).take (s.size - (p + 1)) = s.elems.drop (p + 1) :=
    List.take_of_length_le (by simp [List.length_drop]; omega)
  have hb : s.size - 1 < s.elems.length := by omega
  have h2 : s.elems.drop (p + (s.size - (p + 1))) = [s.elems[s.size - 1]] := by
    rw [show p + (s.size - (p + 1)) = s.size - 1 by omega, List.drop_eq_getElem_cons hb,
      show s.size - 1 + 1 = s.elems.length by omega, List.drop_length]
  rw [h1, h2]
  exact List.dropLast_concat

lemma erase_size [Inhabited T] (s : Vec T) (p : Nat) (hp : p < s.size) :
    (s.erase p).size = s.size - 1 := by
  have hsl := size_eq_length s
  have h := erase_elems s p hp
  rw [size_eq_length, h]
  simp [List.length_take, List.length_drop]
  omega

lemma insertShift_eq [Inhabited T] (l : List T) (p : Nat) (v : T) (hp : p < l.length) :
    (moveBackward (l ++ [l.getD (l.length - 1) default]) p (l.length - 1) l.length).set p v
      = l.take p ++ v :: l.drop p := by
  unfold moveBackward
  set k := l.length - 1 - p with hk
  rw [show l.length - 1 = p + k by omega, show l.length = p + k + 1 by omega]
  have hblen : p + k + 1 ≤ (l ++ [l.getD (p + k) default]).length := by
    simp only [List.length_append, List.length_cons, List.length_nil]
    omega
  rw [moveBackwardGo_eq p k _ hblen]
  have g1 : (l ++ [l.getD (p + k) default]).take (p + 1) = l.take (p + 1) :=
    List.take_append_of_le_length (by omega)
  have g2 : ((l ++ [l.getD (p + k) default]).drop p).take k = (l.drop p).take k := by
    rw [List.drop_append_of_le_length (by omega)]
    rw [List.take_append_of_le_length (by simp only [List.length_drop]; omega)]
  have g3 : (l ++ [l.getD (p + k) default]).drop (p + k + 1) = [l.getD (p + k) default] := by
    rw [show p + k + 1 = l.length by omega, List.drop_left]
  rw [g1, g2, g3]
  rw [List.append_assoc, List.set_append_left _ _ (by simp only [List.length_take]; omega)]
  rw [take_succ_set_self _ _ _ (by omega)]
  have hb2 : p + k < l.length := by omega
  have tail : (l.drop p).take k ++ [l.getD (p + k) default] = l.drop p := by
    conv_rhs => rw [← List.take_append_drop k (l.drop p)]
    congr 1
    rw [List.drop_drop, List.drop_eq_getElem_cons hb2,
      show p + k + 1 = l.length by omega, List.drop_length]
    simp [List.getD_eq_getElem?_getD, List.getElem?_eq_getElem hb2]
  rw [tail]
  simp [List.append_assoc]

lemma emplace_elems [Inhabited T] (s : Vec T) (p : Nat) (v : T) (hp : p ≤ s.size) :
    (s.emplace p v).elems = s.elems.take p ++ v :: s.elems.drop p := by
  have hsl := size_eq_length s
  unfold Vec.emplace
  by_cases hend : p = s.size
  · rw [if_pos hend, pushBack_elems, hend, size_eq_length, List.take_length, List.drop_length]
  · rw [if_neg hend]
    have hplt : p < s.size := lt_of_le_of_ne hp hend
    by_cases hcap : s.size < s.cap
    · rw [if_pos hcap]
      show (moveBackward (s.elems ++ [s.elems.getD (s.size - 1) default])
          p (s.size - 1) s.size).set p v = _
      rw [size_eq_length] at hplt
      simp only [size_eq_length]
      exact insertShift_eq s.elems p v hplt
    · rw [if_neg hcap]

lemma emplace_size [Inhabited T] (s : Vec T) (p : Nat) (v : T) (hp : p ≤ s.size) :
    (s.emplace p v).size = s.size + 1 := by
  have hsl := size_eq_length s
  rw [size_eq_length, emplace_elems s p v hp]
  simp [List.length_take, List.length_drop]
  omega

/-! Preservation of the size-capacity invariant by every public operation. -/

lemma empty_WF : (Vec.empty : Vec T).WF := Nat.le_refl 0

lemma popBack_WF (s : Vec T) (h : s.WF) : s.popBack.WF := by
  have hsl := size_eq_length s
  show s.elems.dropLast.length ≤ s.cap
  rw [List.length_dropLast]
  have hwf : s.size ≤ s.cap := h
  omega

lemma emplace_WF [Inhabited T] (s : Vec T) (p : Nat) (v : T) (hp : p ≤ s.size) :
    (s.emplace p v).WF := by
  have hsz := emplace_size s p v hp
  show (s.emplace p v).size ≤ (s.emplace p v).cap
  rw [hsz]
  unfold Vec.emplace
  by_cases hend : p = s.size
  · rw [if_pos hend]
    have h3 : (s.pushBack v).size ≤ (s.pushBack v).cap := pushBack_WF s v
    have h2 := pushBack_size s v
    omega
  · rw [if_neg hend]
    by_cases hcap : s.size < s.cap
    · rw [if_pos hcap]
      show s.size + 1 ≤ s.cap
      omega
    · rw [if_neg hcap]
      exact newCapacity_ge s.size

lemma erase_WF [Inhabited T] (s : Vec T) (p : Nat) (hp : p < s.size) (h : s.WF) :
    (s.erase p).WF := by
  have hsz := erase_size s p hp
  have hwf : s.size ≤ s.cap := h
  show (s.erase p).size ≤ (s.erase p).cap
  rw [hsz]
  show s.size - 1 ≤ s.cap
  omega

lemma reserve_elems (s : Vec T) (n : Nat) : (s.reserve n).elems = s.elems := by
  unfold Vec.reserve
  split <;> rfl

lemma reserve_cap (s : Vec T) (n : Nat) :
    (s.reserve n).cap = if n ≤ s.cap then s.cap else n := by
  unfold Vec.reserve
  split <;> simp [*]

lemma reserve_WF (s : Vec T) (n : Nat) (h : s.WF) : (s.reserve n).WF := by
  have hwf : s.size ≤ s.cap := h
  show (s.reserve n).size ≤ (s.reserve n).cap
  rw [show (s.reserve n).size = s.size from congrArg List.length (reserve_elems s n),
    reserve_cap]
  split <;> omega

lemma resize_WF (s : Vec T) (n : Nat) (d : T) (h : s.WF) : (s.resize n d).WF := by
  have hwf : s.size ≤ s.cap := h
  have hsl := size_eq_length s
  show (s.resize n d).size ≤ (s.resize n d).cap
  unfold Vec.resize
  by_cases h1 : s.size < n
  · rw [if_pos h1]
    show ((s.reserve n).elems ++ List.replicate (n - s.size) d).length ≤ (s.reserve n).cap
    rw [List.length_append, List.length_replicate, reserve_elems, reserve_cap]
    split <;> omega
  · rw [if_neg h1]
    by_cases h2 : n < s.size
    · rw [if_pos h2]
      show (s.elems.take n).length ≤ s.cap
      rw [List.length_take]
      omega
    · rw [if_neg h2]
      exact h

lemma copyAssign_WF (dst src : Vec T) : (dst.copyAssign src).WF := by
  have hsl := size_eq_length src
  unfold Vec.copyAssign
  split
  · show src.elems.length ≤ src.size
    omega
  · show src.elems.length ≤ dst.cap
    omega

/-! Characterization of the buffer slots. -/

lemma slots_length (s : Vec T) (h : s.WF) : s.slots.length = s.cap := by
  have hwf : s.size ≤ s.cap := h
  have hsl := size_eq_length s
  simp [Vec.slots, List.length_append, List.length_map, List.length_replicate]
  omega

lemma slots_live [Inhabited T] (s : Vec T) (i : Nat) (hi : i < s.size) :
    s.slots.getD i none = some (s.elems.getD i default) := by
  have hsl := size_eq_length s
  have hi2 : i < s.elems.length := by omega
  unfold Vec.slots
  rw [List.getD_eq_getElem?_getD,
    List.getElem?_append_left (by simp [List.length_map]; omega),
    List.getElem?_map, List.getElem?_eq_getElem hi2]
  simp [List.getD_eq_getElem?_getD, List.getElem?_eq_getElem hi2]

lemma slots_raw (s : Vec T) (i : Nat) (h1 : s.size ≤ i) (h2 : i < s.cap) :
    s.slots.getD i none = none := by
  have hsl := size_eq_length s
  unfold Vec.slots
  rw [List.getD_eq_getElem?_getD,
    List.getElem?_append_right (by simp [List.length_map]; omega)]
  rw [List.getElem?_replicate]
  rw [if_pos (by simp [List.length_map]; omega)]
  rfl

/-! Element-wise consequences of the insertion and erasure equations,
shared by the order-preservation and return-value theorems. -/

lemma emplace_getD_lt [Inhabited T] (s : Vec T) (p i : Nat) (v : T) (hp : p ≤ s.size)
    (hi : i < p) : (s.emplace p v).elems.getD i default = s.elems.getD i default := by
  have hsl := size_eq_length s
  rw [emplace_elems s p v hp]
  rw [List.getD_eq_getElem?_getD, List.getD_eq_getElem?_getD,
    List.getElem?_append_left (by simp only [List.length_take]; omega), List.getElem?_take,
    if_pos hi]

lemma emplace_getD_self [Inhabited T] (s : Vec T) (p : Nat) (v : T) (hp : p ≤ s.size) :
    (s.emplace p v).elems.getD p default = v := by
  have hsl := size_eq_length s
  rw [emplace_elems s p v hp]
  rw [List.getD_eq_getElem?_getD,
    List.getElem?_append_right (by simp only [List.length_take]; omega)]
  simp only [List.length_take, Nat.min_eq_left (by omega : p ≤ s.elems.length), Nat.sub_self]
  simp

lemma emplace_getD_ge [Inhabited T] (s : Vec T) (p i : Nat) (v : T) (hp : p ≤ s.size)
    (h1 : p ≤ i) (h2 : i < s.size) :
    (s.emplace p v).elems.getD (i + 1) default = s.elems.getD i default := by
  have hsl := size_eq_length s
  rw [emplace_elems s p v hp]
  rw [List.getD_eq_getElem?_getD, List.getD_eq_getElem?_getD,
    List.getElem?_append_right (by simp only [List.length_take]; omega)]
  have hmin : (s.elems.take p).length = p := by
    simp only [List.length_take]
    omega
  rw [hmin, show i + 1 - p = (i - p) + 1 by omega, List.getElem?_cons_succ,
    List.getElem?_drop, show p + (i - p) = i by omega]

lemma erase_getD_lt [Inhabited T] (s : Vec T) (p i : Nat) (hp : p < s.size) (hi : i < p) :
    (s.erase p).elems.getD i default = s.elems.getD i default := by
  have hsl := size_eq_length s
  rw [erase_elems s p hp]
  rw [List.getD_eq_getElem?_getD, List.getD_eq_getElem?_getD,
    List.getElem?_append_left (by simp only [List.length_take]; omega), List.getElem?_take,
    if_pos hi]

lemma erase_getD_ge [Inhabited T] (s : Vec T) (p i : Nat) (hp : p < s.size)
    (h1 : p ≤ i) (h2 : i + 1 < s.size) :
    (s.erase p).elems.getD i default = s.elems.getD (i + 1) default := by
  have hsl := size_eq_length s
  rw [erase_elems s p hp]
  rw [List.getD_eq_getElem?_getD, List.getD_eq_getElem?_getD,
    List.getElem?_append_right (by simp only [List.length_take]; omega)]
  have hmin : (s.elems.take p).length = p := by
    simp only [List.length_take]
    omega
  rw [hmin, List.getElem?_drop, show p + 1 + (i - p) = i + 1 by omega]

lemma pushBack_getD_last [Inhabited T] (s : Vec T) (v : T) :
    (s.pushBack v).elems.getD ((s.pushBack v).size - 1) default = v := by
  rw [pushBack_size, pushBack_elems, Nat.add_sub_cancel, List.getD_eq_getElem?_getD,
    List.getElem?_append_right (by rw [size_eq_length]),
    show s.size - s.elems.length = 0 by rw [size_eq_length]; omega]
  rfl

lemma emplaceRet_fst [Inhabited T] (s : Vec T) (p : Nat) (v : T) :
    (s.emplaceRet p v).1 = s.emplace p v := by
  unfold Vec.emplaceRet
  split <;> rfl

lemma emplaceRet_snd [Inhabited T] (s : Vec T) (p : Nat) (v : T) (hp : p ≤ s.size) :
    (s.emplaceRet p v).2 = p := by
  unfold Vec.emplaceRet
  split
  · rename_i hend
    show (s.emplace p v).size - 1 = p
    rw [emplace_size s p v hp]
    omega
  · rfl

/-! Facts about Resize and Reserve needed for the round-trip theorem. -/

lemma resize_size (s : Vec T) (n : Nat) (d : T) : (s.resize n d).size = n := by
  have hsl := size_eq_length s
  unfold Vec.resize
  by_cases h1 : s.size < n
  · rw [if_pos h1]
    show ((s.reserve n).elems ++ List.replicate (n - s.size) d).length = n
    rw [List.length_append, List.length_replicate, reserve_elems]
    omega
  · rw [if_neg h1]
    by_cases h2 : n < s.size
    · rw [if_pos h2]
      show (s.elems.take n).length = n
      rw [List.length_take]
      omega
    · rw [if_neg h2]
      omega

lemma resize_elems_grow (s : Vec T) (n : Nat) (d : T) (h : s.size < n) :
    (s.resize n d).elems = s.elems ++ List.replicate (n - s.size) d := by
  unfold Vec.resize
  rw [if_pos h]
  show (s.reserve n).elems ++ _ = _
  rw [reserve_elems]

lemma resize_elems_shrink (s : Vec T) (n : Nat) (d : T) (h : n < s.size) :
    (s.resize n d).elems = s.elems.take n := by
  unfold Vec.resize
  rw [if_neg (by omega), if_pos h]

lemma resize_self (s : Vec T) (d : T) : s.resize s.size d = s := by
  unfold Vec.resize
  rw [if_neg (by omega), if_neg (by omega)]

/-! Facts about the throwing-copy models. -/

lemma copySeq_ok (ok : T → Bool) :
    ∀ (l r : List T), copySeq ok l = .ok r → r = l := by
  intro l
  induction l with
  | nil =>
    intro r h
    unfold copySeq at h
    exact (Except.ok.inj h).symm
  | cons a rest ih =>
    intro r h
    unfold copySeq at h
    by_cases hok : ok a
    · rw [if_pos hok] at h
      cases hrec : copySeq ok rest with
      | ok l2 =>
        rw [hrec] at h
        rw [← Except.ok.inj h, ih l2 hrec]
      | error e =>
        rw [hrec] at h
        exact absurd h (by simp)
    · rw [if_neg hok] at h
      exact absurd h (by simp)

lemma assignSeq_ok (ok : T → Bool) :
    ∀ (src dst r : List T), src.length ≤ dst.length →
      assignSeq ok src dst = .ok r → r = src ++ dst.drop src.length := by
  intro src
  induction src with
  | nil =>
    intro dst r _ h
    unfold assignSeq at h
    rw [← Except.ok.inj h]
    simp
  | cons a as ih =>
    intro dst r hlen h
    cases dst with
    | nil => simp at hlen
    | cons b ds =>
      unfold assignSeq at h
      by_cases hok : ok a
      · rw [if_pos hok] at h
        cases hrec : assignSeq ok as ds with
        | ok l2 =>
          rw [hrec] at h
          rw [← Except.ok.inj h, ih ds l2 (by simpa using hlen) hrec]
          simp
        | error e =>
          rw [hrec] at h
          exact absurd h (by simp)
      · rw [if_neg hok] at h
        exact absurd h (by simp)

/-! Claim theorems. -/

/-- C3: REFUTED ON THE CODE (code bug, same root cause as the missing
rethrow documented for the exception-propagation claim).  The claim
states that in every state reached by completed public operations
respecting their preconditions, slots [0, size) hold live constructed
elements.  Because the catch blocks of Emplace's reallocating path
(vector.h lines 480-484, 502-506) do not rethrow, a copy-throwing Emplace
at a non-end position on a full vector returns NORMALLY - no exception
escapes and no precondition is violated - yet hands the vector a buffer
with unconstructed slots below size_.  Concretely, on the full vector
[t0, t1, t2] (size = capacity = 3) whose element t0 (encoded 0 under the
copy oracle fun a => a ≠ 0) fails to copy, Emplace of 7 at position 1
completes into the state with size_ = 4 and capacity 6 in which slot 0
lies below size_ but holds no live element, falsifying the claimed
invariant; the spec's own data-model invariant shows the claim is the
intent and the missing rethrow a slip. -/
theorem c3_swallowed_emplace_breaks_liveness :
    Vec.emplaceReallocDup (fun a => decide (a ≠ 0)) (Vec.mk [0, 1, 2] 3) 1 (.ok 7)
      = .ok (RawVec.mk [none, none, some 1, some 2, none, none] 4 6) ∧
    (RawVec.mk [none, none, some 1, some 2, none, none] 4 6 : RawVec Nat).size
      ≤ (RawVec.mk [none, none, some 1, some 2, none, none] 4 6 : RawVec Nat).cap ∧
    0 < (RawVec.mk [none, none, some 1, some 2, none, none] 4 6 : RawVec Nat).size ∧
    (RawVec.mk [none, none, some 1, some 2, none, none] 4 6 : RawVec Nat).slots.getD 0 none
      = none := by
  exact ⟨rfl, by decide, by decide, rfl⟩

/-- C4: an append reallocates only when size equals capacity (an append
that fits leaves the capacity untouched); when it reallocates, the new
capacity is 1 from capacity 0 and twice the old capacity otherwise; and
the capacities after 0, 1, ..., 9 successive appends from empty are
0, 1, 2, 4, 4, 8, 8, 8, 8, 16, i.e. the doubling sequence 0, 1, 2, 4, 8, 16. -/
theorem c4_capacity_growth {T : Type} :
    (∀ (s : Vec T) (v : T), s.size < s.cap → (s.pushBack v).cap = s.cap) ∧
    (∀ (s : Vec T) (v : T), s.WF → ¬ s.size < s.cap →
      (s.pushBack v).cap = if s.cap = 0 then 1 else 2 * s.cap) ∧
    (List.range 10).map (fun k => (appendN k).cap) = [0, 1, 2, 4, 4, 8, 8, 8, 8, 16] := by
  refine ⟨?_, ?_, by rfl⟩
  · intro s v hlt
    rw [pushBack_cap, if_pos hlt]
  · intro s v hwf hnlt
    have heq : s.size = s.cap := Nat.le_antisymm hwf (Nat.le_of_not_lt hnlt)
    rw [pushBack_cap, if_neg hnlt]
    unfold newCapacity
    rw [heq]
    by_cases hc : s.cap = 0
    · rw [if_pos hc, if_pos hc]
    · rw [if_neg hc, if_neg hc]
      omega

/-- C4 witness: an append into spare capacity keeps capacity 2; a full
vector of capacity 1 doubles to capacity 2. -/
theorem c4_capacity_growth_witness :
    ((Vec.mk [5] 2 : Vec Nat).size < (Vec.mk [5] 2 : Vec Nat).cap ∧
      ((Vec.mk [5] 2 : Vec Nat).pushBack 7).cap = (Vec.mk [5] 2 : Vec Nat).cap) ∧
    ((Vec.mk [5] 1 : Vec Nat).WF ∧ ¬ (Vec.mk [5] 1 : Vec Nat).size < (Vec.mk [5] 1 : Vec Nat).cap ∧
      ((Vec.mk [5] 1 : Vec Nat).pushBack 7).cap
        = (if (Vec.mk [5] 1 : Vec Nat).cap = 0 then 1 else 2 * (Vec.mk [5] 1 : Vec Nat).cap)) :=
  ⟨⟨by decide, (c4_capacity_growth.1 (Vec.mk [5] 2) 7 (by decide))⟩,
   ⟨Nat.le_refl 1, by decide,
    (c4_capacity_growth.2.1 (Vec.mk [5] 1) 7 (Nat.le_refl 1) (by decide))⟩⟩

/-- C5: move construction hands the new vector exactly the source's buffer,
size and elements and leaves the source with size 0, capacity 0 and no
storage; move assignment between distinct objects exchanges buffer and
size, leaving the source holding what the destination previously owned.
Both are total functions performing no allocation and no element
construction, so neither can throw. -/
theorem c5_move_operations {T : Type} :
    (∀ src : Vec T, Vec.moveCtor src = (src, (⟨[], 0⟩ : Vec T))) ∧
    (∀ dst src : Vec T, Vec.moveAssign false dst src = (src, dst)) := by
  constructor
  · intro src
    rfl
  · intro dst src
    rfl

/-- C7: Emplace/Insert at any valid position p (when nothing throws)
yields a vector one larger whose prefix [0, p) is unchanged, whose slot p
holds the new element, and whose former elements [p, size) sit one slot
later in their original order; inserting 9 at position 2 into [1, 2, 3, 4]
yields [1, 2, 9, 3, 4]. -/
theorem c7_insert_preserves_order {T : Type} [Inhabited T] (s : Vec T) (p : Nat) (v : T)
    (hp : p ≤ s.size) :
    (s.emplace p v).size = s.size + 1 ∧
    (s.emplace p v).elems = s.elems.take p ++ v :: s.elems.drop p ∧
    (∀ i, i < p → (s.emplace p v).elems.getD i default = s.elems.getD i default) ∧
    (s.emplace p v).elems.getD p default = v ∧
    (∀ i, p ≤ i → i < s.size →
      (s.emplace p v).elems.getD (i + 1) default = s.elems.getD i default) := by
  refine ⟨emplace_size s p v hp, emplace_elems s p v hp, ?_, emplace_getD_self s p v hp, ?_⟩
  · intro i hi
    exact emplace_getD_lt s p i v hp hi
  · intro i h1 h2
    exact emplace_getD_ge s p i v hp h1 h2

/-- C7 witness: inserting 9 at position 2 into [1, 2, 3, 4] yields
[1, 2, 9, 3, 4] of size 5. -/
theorem c7_insert_preserves_order_witness :
    (2 ≤ (Vec.mk [1, 2, 3, 4] 4 : Vec Nat).size) ∧
    ((Vec.mk [1, 2, 3, 4] 4 : Vec Nat).emplace 2 9).elems = [1, 2, 9, 3, 4] ∧
    ((Vec.mk [1, 2, 3, 4] 4 : Vec Nat).emplace 2 9).size
      = (Vec.mk [1, 2, 3, 4] 4 : Vec Nat).size + 1 :=
  ⟨by decide, by rfl, (c7_insert_preserves_order (Vec.mk [1, 2, 3, 4] 4) 2 9 (by decide)).1⟩

/-- C8 counterexample: the claim asserts that erasing at position 1 of
[a, b, c] yields [b, c]; on the code (with a, b, c encoded as 1, 2, 3),
Erase(begin() + 1) removes the element at index 1 and yields [a, c] =
[1, 3], not [b, c] = [2, 3]. -/
theorem c8_erase_example_refuted :
    ((Vec.mk [1, 2, 3] 3 : Vec Nat).erase 1).elems = [1, 3] ∧
    ¬ ((Vec.mk [1, 2, 3] 3 : Vec Nat).erase 1).elems = [2, 3] := by
  exact ⟨by rfl, by decide⟩

/-- C8 (amended): Erase(p) on a non-empty vector with p before the end
move-assigns each element after p one slot earlier, destroys the last
slot, and yields a vector one smaller whose prefix [0, p) is unchanged and
whose remaining elements are the former elements after p in order; in
particular erase at position 1 of [a, b, c] yields [a, c] with size 2. -/
theorem c8_erase_shifts_down {T : Type} [Inhabited T] (s : Vec T) (p : Nat)
    (hp : p < s.size) :
    (s.erase p).size = s.size - 1 ∧
    (s.erase p).elems = s.elems.take p ++ s.elems.drop (p + 1) ∧
    (∀ i, i < p → (s.erase p).elems.getD i default = s.elems.getD i default) ∧
    (∀ i, p ≤ i → i + 1 < s.size →
      (s.erase p).elems.getD i default = s.elems.getD (i + 1) default) := by
  refine ⟨erase_size s p hp, erase_elems s p hp, ?_, ?_⟩
  · intro i hi
    exact erase_getD_lt s p i hp hi
  · intro i h1 h2
    exact erase_getD_ge s p i hp h1 h2

/-- C8 witness: erasing at position 1 of [1, 2, 3] yields [1, 3] with
size 2. -/
theorem c8_erase_shifts_down_witness :
    (1 < (Vec.mk [1, 2, 3] 3 : Vec Nat).size) ∧
    ((Vec.mk [1, 2, 3] 3 : Vec Nat).erase 1).size = (Vec.mk [1, 2, 3] 3 : Vec Nat).size - 1 ∧
    ((Vec.mk [1, 2, 3] 3 : Vec Nat).erase 1).elems
      = (Vec.mk [1, 2, 3] 3 : Vec Nat).elems.take 1
        ++ (Vec.mk [1, 2, 3] 3 : Vec Nat).elems.drop 2 :=
  ⟨by decide, (c8_erase_shifts_down (Vec.mk [1, 2, 3] 3) 1 (by decide)).1,
   (c8_erase_shifts_down (Vec.mk [1, 2, 3] 3) 1 (by decide)).2.1⟩

/-- C9: resize(n) followed by resize(s) on a vector of size s restores
size s; when n < s the first n positions keep their original values and
positions [n, s) hold the default-constructed value; when s <= n the
round trip restores the original elements; resize to the current size
changes nothing. -/
theorem c9_resize_roundtrip {T : Type} (s : Vec T) (n : Nat) (d : T) :
    ((s.resize n d).resize s.size d).size = s.size ∧
    (n < s.size → ((s.resize n d).resize s.size d).elems
        = s.elems.take n ++ List.replicate (s.size - n) d) ∧
    (s.size ≤ n → ((s.resize n d).resize s.size d).elems = s.elems) ∧
    s.resize s.size d = s := by
  refine ⟨resize_size _ _ _, ?_, ?_, resize_self s d⟩
  · intro hlt
    have h1 : (s.resize n d).size < s.size := by
      rw [resize_size]
      exact hlt
    rw [resize_elems_grow _ _ _ h1, resize_elems_shrink _ _ _ hlt, resize_size]
  · intro hge
    by_cases heq : s.size = n
    · rw [← heq, resize_self, resize_self]
    · have hlt : s.size < n := by omega
      have h1 : s.size < (s.resize n d).size := by
        rw [resize_size]
        exact hlt
      rw [resize_elems_shrink _ _ _ h1, resize_elems_grow _ _ _ hlt]
      rw [List.take_append_of_le_length (by rw [← size_eq_length])]
      rw [size_eq_length, List.take_length]

/-- C9 witness: on [1, 2, 3, 4, 5], resize(2) then resize(5) restores size
5 with positions [2, 5) default-constructed: [1, 2, 0, 0, 0]. -/
theorem c9_resize_roundtrip_witness :
    (((Vec.mk [1, 2, 3, 4, 5] 8 : Vec Nat).resize 2 0).resize
        (Vec.mk [1, 2, 3, 4, 5] 8 : Vec Nat).size 0).size
      = (Vec.mk [1, 2, 3, 4, 5] 8 : Vec Nat).size ∧
    ((2 : Nat) < (Vec.mk [1, 2, 3, 4, 5] 8 : Vec Nat).size) ∧
    (((Vec.mk [1, 2, 3, 4, 5] 8 : Vec Nat).resize 2 0).resize
        (Vec.mk [1, 2, 3, 4, 5] 8 : Vec Nat).size 0).elems = [1, 2, 0, 0, 0] :=
  ⟨(c9_resize_roundtrip (Vec.mk [1, 2, 3, 4, 5] 8) 2 0).1, by decide,
   ((c9_resize_roundtrip (Vec.mk [1, 2, 3, 4, 5] 8) 2 0).2.1 (by decide)).trans (by rfl)⟩

/-- C10: Emplace/Insert return the iterator begin() + insertion index,
which addresses the newly inserted element, including when the insertion
delegated to EmplaceBack or reallocated; Erase returns begin() + erased
index, which addresses the element that followed the erased one; and
EmplaceBack returns a reference to the newly appended element (index
size - 1 of the updated vector). -/
theorem c10_return_values {T : Type} [Inhabited T] (s : Vec T) (p q : Nat) (v w : T)
    (hp : p ≤ s.size) (hq : q < s.size) :
    (s.emplaceRet p v).2 = p ∧
    (s.emplaceRet p v).1.elems.getD p default = v ∧
    (s.eraseRet q).2 = q ∧
    (q + 1 < s.size →
      (s.eraseRet q).1.elems.getD q default = s.elems.getD (q + 1) default) ∧
    (s.emplaceBackRet w).2 = (s.emplaceBackRet w).1.size - 1 ∧
    (s.emplaceBackRet w).1.elems.getD ((s.emplaceBackRet w).2) default = w := by
  refine ⟨emplaceRet_snd s p v hp, ?_, rfl, ?_, rfl, ?_⟩
  · rw [emplaceRet_fst]
    exact emplace_getD_self s p v hp
  · intro h2
    show (s.erase q).elems.getD q default = s.elems.getD (q + 1) default
    exact erase_getD_ge s q q hq (Nat.le_refl q) h2
  · show (s.pushBack w).elems.getD ((s.pushBack w).size - 1) default = w
    exact pushBack_getD_last s w

/-- C10 witness: on [1, 2, 3] with capacity 3, emplace at 1 returns index
1 holding the new element, erase at 1 returns index 1 holding the former
element of index 2, and EmplaceBack returns index size - 1 holding the
appended element. -/
theorem c10_return_values_witness :
    ((1 ≤ (Vec.mk [1, 2, 3] 3 : Vec Nat).size) ∧ 1 < (Vec.mk [1, 2, 3] 3 : Vec Nat).size) ∧
    ((Vec.mk [1, 2, 3] 3 : Vec Nat).emplaceRet 1 9).2 = 1 ∧
    ((Vec.mk [1, 2, 3] 3 : Vec Nat).emplaceRet 1 9).1.elems.getD 1 default = 9 ∧
    ((Vec.mk [1, 2, 3] 3 : Vec Nat).eraseRet 1).2 = 1 :=
  ⟨⟨by decide, by decide⟩,
   (c10_return_values (Vec.mk [1, 2, 3] 3) 1 1 9 7 (by decide) (by decide)).1,
   (c10_return_values (Vec.mk [1, 2, 3] 3) 1 1 9 7 (by decide) (by decide)).2.1,
   (c10_return_values (Vec.mk [1, 2, 3] 3) 1 1 9 7 (by decide) (by decide)).2.2.1⟩

/-- C1: REFUTED ON THE CODE (code bug).  The claim and the spec say every
operation propagates an element-constructor exception, explicitly
including the prefix and suffix transfers of a reallocating Emplace at a
non-end position.  The catch blocks of that path (vector.h lines 480-484
and 502-506) destroy partially constructed elements but do not rethrow,
so the operation runs to completion instead.  Concretely: a full vector
[t0, t1, t2] (size = capacity = 3) of a copy-strategy element type whose
copy of t0 throws (here 0 under the oracle fun a => a ≠ 0), emplacing 7 at
position 1 returns normally (Except.ok, not an error): the prefix throw
is caught, the new element is destroyed, the suffix is still copied to
slots 2 and 3 of the new buffer, the buffer is adopted and size_ becomes
4 with slots 0 and 1 unconstructed. -/
theorem c1_emplace_swallows_transfer_exception :
    Vec.emplaceReallocDup (fun a => decide (a ≠ 0)) (Vec.mk [0, 1, 2] 3) 1 (.ok 7)
      = .ok ⟨[none, none, some 1, some 2, none, none], 4, 6⟩ := by
  rfl

/-- C2: when a duplicating (copy-strategy) reallocating PushBack or
EmplaceBack fails, because constructing the new element or copying one of
the old elements into the new buffer throws, the propagated exception
leaves the vector with the same size, the same capacity, and the same
element values as before the call.  (Proved for every execution of the
model, reallocating or not: every error exit carries the unchanged
original state.) -/
theorem c2_append_strong_guarantee {T : Type} (ok : T → Bool) (s sf : Vec T)
    (mk : Except Unit T) (h : Vec.emplaceBackDup ok s mk = .error sf) :
    sf.size = s.size ∧ sf.cap = s.cap ∧ sf.elems = s.elems := by
  unfold Vec.emplaceBackDup at h
  split at h
  · split at h
    · exact absurd h (by simp)
    · rw [show s = sf from Except.error.inj h]
      exact ⟨rfl, rfl, rfl⟩
  · split at h
    · rw [show s = sf from Except.error.inj h]
      exact ⟨rfl, rfl, rfl⟩
    · split at h
      · exact absurd h (by simp)
      · rw [show s = sf from Except.error.inj h]
        exact ⟨rfl, rfl, rfl⟩

/-- C2 witness: on the full vector [1, 0] (size = capacity = 2) whose
element 0 fails to copy, the reallocating append of 9 propagates an
exception and leaves size, capacity and elements unchanged. -/
theorem c2_append_strong_guarantee_witness :
    (Vec.emplaceBackDup (fun a => decide (a ≠ 0)) (Vec.mk [1, 0] 2) (.ok 9)
        = .error (Vec.mk [1, 0] 2)) ∧
    ((Vec.mk [1, 0] 2 : Vec Nat).size = (Vec.mk [1, 0] 2 : Vec Nat).size ∧
      (Vec.mk [1, 0] 2 : Vec Nat).cap = (Vec.mk [1, 0] 2 : Vec Nat).cap ∧
      (Vec.mk [1, 0] 2 : Vec Nat).elems = (Vec.mk [1, 0] 2 : Vec Nat).elems) :=
  ⟨by rfl,
   c2_append_strong_guarantee (fun a => decide (a ≠ 0)) (Vec.mk [1, 0] 2)
     (Vec.mk [1, 0] 2) (.ok 9) (by rfl)⟩

/-- C6: copy assignment with this == &rhs is a no-op; a successful copy
assignment makes the destination element-wise equal to the source with the
source's size; and in the capacity < source-size case (copy-and-swap), a
throw while duplicating the source leaves the destination exactly as it
was before the call. -/
theorem c6_copy_assignment {T : Type} (ctorOk assignOk : T → Bool) (dst src d e : Vec T) :
    (Vec.copyAssignExc ctorOk assignOk true dst src = .ok dst) ∧
    (Vec.copyAssignExc ctorOk assignOk false dst src = .ok d →
      d.elems = src.elems ∧ d.size = src.size) ∧
    (dst.cap < src.size → Vec.copyAssignExc ctorOk assignOk false dst src = .error e →
      e = dst) := by
  refine ⟨rfl, ?_, ?_⟩
  · intro h
    unfold Vec.copyAssignExc at h
    rw [if_neg (by simp)] at h
    by_cases h1 : dst.cap < src.size
    · rw [if_pos h1] at h
      cases hc : copySeq ctorOk src.elems with
      | ok copies =>
        rw [hc] at h
        have hcop := copySeq_ok ctorOk _ _ hc
        rw [← Except.ok.inj h]
        refine ⟨hcop, ?_⟩
        show copies.length = src.size
        rw [hcop, ← size_eq_length]
      | error e2 =>
        rw [hc] at h
        exact absurd h (by simp)
    · rw [if_neg h1] at h
      by_cases h2 : src.size < dst.size
      · rw [if_pos h2] at h
        cases ha : assignSeq assignOk src.elems dst.elems with
        | ok l =>
          rw [ha] at h
          have hlen : src.elems.length ≤ dst.elems.length := by
            have e1 := size_eq_length src
            have e2 := size_eq_length dst
            omega
          have hl := assignSeq_ok assignOk _ _ _ hlen ha
          rw [← Except.ok.inj h]
          have htake : l.take src.size = src.elems := by
            rw [hl, size_eq_length src, List.take_left]
          exact ⟨htake, by rw [show (Vec.mk (l.take src.size) dst.cap).size
            = (l.take src.size).length from rfl, htake, ← size_eq_length]⟩
        | error e2 =>
          rw [ha] at h
          exact absurd h (by simp)
      · rw [if_neg h2] at h
        have hds : dst.size ≤ src.size := Nat.le_of_not_lt h2
        have hlen2 : (src.elems.take dst.size).length = dst.size := by
          have e1 := size_eq_length src
          have e2 := size_eq_length dst
          simp only [List.length_take]
          omega
        cases ha : assignSeq assignOk (src.elems.take dst.size) dst.elems with
        | ok l =>
          rw [ha] at h
          have hl : l = src.elems.take dst.size := by
            have hres := assignSeq_ok assignOk _ _ _
              (by rw [hlen2, ← size_eq_length]) ha
            rw [hres, hlen2, size_eq_length dst, List.drop_length, List.append_nil]
          cases hcc : copySeq ctorOk (src.elems.drop dst.size) with
          | ok copies =>
            rw [hcc] at h
            have hcop := copySeq_ok ctorOk _ _ hcc
            rw [← Except.ok.inj h]
            have helems : l ++ copies = src.elems := by
              rw [hl, hcop, List.take_append_drop]
            refine ⟨helems, ?_⟩
            show (l ++ copies).length = src.size
            rw [helems, ← size_eq_length]
          | error e2 =>
            rw [hcc] at h
            exact absurd h (by simp)
        | error e2 =>
          rw [ha] at h
          exact absurd h (by simp)
  · intro h1 h
    unfold Vec.copyAssignExc at h
    rw [if_neg (by simp), if_pos h1] at h
    cases hc : copySeq ctorOk src.elems with
    | ok copies =>
      rw [hc] at h
      exact absurd h (by simp)
    | error e2 =>
      rw [hc] at h
      exact (Except.error.inj h).symm

/-- C6 witness: self-assignment is a no-op on [1] with capacity 1; a
successful assignment of [7, 8] over it yields elements [7, 8] of size 2;
and when duplicating the source [0, 8] throws (0 fails to copy) the
destination [1] with capacity 1 is returned unchanged. -/
theorem c6_copy_assignment_witness :
    (Vec.copyAssignExc (fun a => decide (a ≠ 0)) (fun a => decide (a ≠ 0)) true
        (Vec.mk [1] 1) (Vec.mk [7, 8] 9) = .ok (Vec.mk [1] 1)) ∧
    ((Vec.mk [7, 8] 2 : Vec Nat).elems = (Vec.mk [7, 8] 9 : Vec Nat).elems ∧
      (Vec.mk [7, 8] 2 : Vec Nat).size = (Vec.mk [7, 8] 9 : Vec Nat).size) ∧
    ((Vec.mk [1] 1 : Vec Nat).cap < (Vec.mk [0, 8] 9 : Vec Nat).size ∧
      (Vec.mk [1] 1 : Vec Nat) = Vec.mk [1] 1) :=
  ⟨(c6_copy_assignment (fun a => decide (a ≠ 0)) (fun a => decide (a ≠ 0))
      (Vec.mk [1] 1) (Vec.mk [7, 8] 9) (Vec.mk [7, 8] 2) (Vec.mk [1] 1)).1,
   (c6_copy_assignment (fun a => decide (a ≠ 0)) (fun a => decide (a ≠ 0))
      (Vec.mk [1] 1) (Vec.mk [7, 8] 9) (Vec.mk [7, 8] 2) (Vec.mk [1] 1)).2.1 (by rfl),
   by decide,
   (c6_copy_assignment (fun a => decide (a ≠ 0)) (fun a => decide (a ≠ 0))
      (Vec.mk [1] 1) (Vec.mk [0, 8] 9) (Vec.mk [7, 8] 2) (Vec.mk [1] 1)).2.2
      (by decide) (by rfl)⟩

end AdvVec
